import Mathlib

/-!
# primal-pds: repository engine and firehose — shallow embedding

This file embeds the core of the primal-pds Personal Data Server in Lean:
the content-addressed block store (`internal/repo/blockstore.go`), the
repository engine (`internal/repo/repo.go`) with its commit algorithm,
and the firehose event pipeline (`internal/events`, `internal/server`).

Modelling conventions:

* A block's bytes are modelled as the structured value they decode to
  (`BlockVal`): a record's canonical CBOR bytes, an MST node, or a
  commit.  CIDs are computed by `computeCID`, an injective (length
  prefixed) encoding into `List Nat` standing in for the SHA-256 CIDv1
  of `ComputeCID` — content addressing idealised as a collision-free
  hash.
* Go's `map[string]Block` is modelled as an association list from CID
  to `BlockVal` with overwrite-on-put semantics (`bsPut`).
* The indigo MST (`mst.Tree`) is modelled as a sorted association list
  of (key, value-CID) pairs serialised as a single node block: the same
  logical contents always yield the same root CID, `Insert`/`Remove`
  return the previous value, and `Walk` enumerates entries in ascending
  key order, which is the interface `repo.go` consumes.
* Database state (`repo_roots`, `repo_blocks` rows for one DID) is
  passed explicitly as `RepoState`; Postgres calls become pure reads
  and functional updates of that state.
* Wall-clock reads (`time.Now` inside `syntax.TIDClock.Next`) become
  explicit `now : Nat` parameters (microseconds).
-/

/-- A TID revision, represented by its microsecond timestamp.  The
13-character base32-sortable TID string used by the Go code is a
fixed-width order-preserving encoding of this number (clock id 0
throughout `repo.go`), so string comparison of revs agrees with `Nat`
comparison here. -/
abbrev Rev := Nat

/-- Modelled from the spec: `next_revision()` (§4.C) / indigo's
`syntax.TIDClock`, whose source is not part of this repository.  A
clock remembers the last issued microsecond; `next` returns the current
wall-clock microsecond, bumped by the logical tiebreaker when the clock
has already issued a value at or after it, so that rapid sequential
calls on the *same* clock still produce strictly increasing values. -/
structure TIDClock where
  clockID : Nat
  lastUnixMicros : Nat
deriving DecidableEq, Repr

/-- Go `syntax.NewTIDClock(id)`: a fresh clock with zeroed state. -/
def TIDClock.new (id : Nat) : TIDClock := ⟨id, 0⟩

/-- Go `TIDClock.Next()` at wall-clock time `now` (microseconds): returns
the issued TID timestamp and the advanced clock. -/
def TIDClock.next (c : TIDClock) (now : Nat) : Rev × TIDClock :=
  let t := if now ≤ c.lastUnixMicros then c.lastUnixMicros + 1 else now
  (t, { c with lastUnixMicros := t })

/-- The rkey string of a TID, as used in record paths.  An injective
rendering of the TID stands in for the base32-sortable string. -/
def tidStr (t : Rev) : String := toString t

/-- A CID: the self-describing hash of a block's bytes, modelled as the
injective encoding of the block's contents (`computeCID`). -/
abbrev BCid := List Nat

/-- A signed commit object (`indigorepo.Commit`): DID, protocol
version, prev commit CID (or null), MST root CID, revision, and
signature bytes. -/
structure Commit where
  did : String
  version : Nat
  prev : Option BCid
  data : BCid
  rev : Rev
  sig : List Nat
deriving DecidableEq, Repr

/-- The decoded contents of a block: a record (its canonical CBOR
bytes), an MST node (here: the full sorted entry list, see the MST
modelling note), or a commit. -/
inductive BlockVal where
  | recB (bytes : List Nat)
  | nodeB (entries : List (String × BCid))
  | commitB (c : Commit)
deriving DecidableEq, Repr

/-- Length-prefixed embedding of a byte list. -/
def encBytes (bs : List Nat) : List Nat := bs.length :: bs

/-- Embedding of a string as bytes. -/
def encStr (s : String) : List Nat := encBytes (s.data.map Char.toNat)

/-- Embedding of an optional CID. -/
def encOpt : Option BCid → List Nat
  | none => [0]
  | some c => 1 :: encBytes c

/-- Embedding of one MST entry. -/
def encEntry (e : String × BCid) : List Nat := encStr e.1 ++ encBytes e.2

/-- Go `ComputeCID` (part of the repo package): the CIDv1 of a block's
bytes.  SHA-256 is idealised as the injective tagged encoding of the
decoded contents. -/
def computeCID : BlockVal → BCid
  | .recB bs => 0 :: encBytes bs
  | .nodeB es => 1 :: es.length :: es.flatMap encEntry
  | .commitB c =>
      2 :: encStr c.did ++ [c.version] ++ encOpt c.prev ++ encBytes c.data
        ++ [c.rev] ++ encBytes c.sig

/-- Go `MemBlockstore`: Go's `map[string]blocks.Block` keyed by CID,
modelled as an association list (the model fixes an enumeration order
where Go's map order is arbitrary). -/
abbrev Store := List (BCid × BlockVal)

/-- Go `MemBlockstore.Get`: look a block up by CID. -/
def bsGet (bs : Store) (c : BCid) : Option BlockVal :=
  (bs.find? (fun p => p.1 = c)).map (·.2)

/-- Go `MemBlockstore.Put` (also the direct map assignment in
`storeCommitBlock`): store a block under its CID, overwriting any
existing entry with that key.  The model keeps the newest entry first;
Go's map iteration order is arbitrary and the model fixes one. -/
def bsPut (bs : Store) (v : BlockVal) : Store :=
  let c := computeCID v
  (c, v) :: bs.filter (fun p => ¬ p.1 = c)

/-- The keys of a store. -/
def bsKeys (bs : Store) : List BCid := bs.map (·.1)

/-- Go `TrackingBlockstore`: wraps a `MemBlockstore`, remembering which
CIDs were present at creation time. -/
structure TrackingBlockstore where
  mem : Store
  preloaded : List BCid
deriving DecidableEq, Repr

/-- Go `NewTrackingBlockstore`: snapshot the current keys as preloaded. -/
def newTrackingBlockstore (bs : Store) : TrackingBlockstore :=
  ⟨bs, bsKeys bs⟩

/-- Go `TrackingBlockstore.Put`: store into the wrapped blockstore. -/
def tbsPut (t : TrackingBlockstore) (v : BlockVal) : TrackingBlockstore :=
  { t with mem := bsPut t.mem v }

/-- One item written to a CAR sink: the v1 header (version, roots) or a
length-prefixed (cid, bytes) block entry. -/
inductive CarItem where
  | header (version : Nat) (roots : List BCid)
  | entry (c : BCid) (v : BlockVal)
deriving DecidableEq, Repr

/-- Go `MemBlockstore.ExportCAR`: write the v1 header, then the commit
block, then all remaining blocks.  Returns the sink contents together
with the outcome; on a missing commit block the header has already been
written when the error is returned. -/
def exportCAR (bs : Store) (commitCID : BCid) :
    List CarItem × Except String Unit :=
  let sink : List CarItem := [.header 1 [commitCID]]
  match bsGet bs commitCID with
  | none => (sink, .error "blockstore: commit block not found")
  | some cv =>
      (sink ++ [.entry commitCID cv]
        ++ (bs.filter (fun p => ¬ p.1 = commitCID)).map
            (fun p => .entry p.1 p.2),
       .ok ())

/-- Go `TrackingBlockstore.ExportDiffCAR`: write the v1 header, the commit
block first, then only the blocks that are neither preloaded nor the
commit block. -/
def exportDiffCAR (t : TrackingBlockstore) (commitCID : BCid) :
    List CarItem × Except String Unit :=
  let sink : List CarItem := [.header 1 [commitCID]]
  match bsGet t.mem commitCID with
  | none => (sink, .error "blockstore: commit block not found")
  | some cv =>
      (sink ++ [.entry commitCID cv]
        ++ (t.mem.filter
              (fun p => ¬ (p.1 ∈ t.preloaded ∨ p.1 = commitCID))).map
            (fun p => .entry p.1 p.2),
       .ok ())

/-- Go `MemBlockstore.PersistAll`: insert every in-memory block into the
`repo_blocks` rows with ON CONFLICT DO NOTHING. -/
def persistAll (mem : Store) (dbBlocks : Store) : Store :=
  mem.foldl
    (fun db p => if db.any (fun q => q.1 = p.1) then db else db ++ [p])
    dbBlocks

/-!
## MST model

`repo.go` consumes indigo's `mst.Tree` through `Get`, `Insert`,
`Remove`, `Walk` (ascending key order) and `WriteDiffBlocks`
(deterministic root CID for the logical contents).  The tree is
modelled as a sorted association list serialised as one node block:
the structural fan-out of the real MST is abstracted, the consumed
interface and the determinism guarantee (§3, §4.B) are kept.
-/

/-- Lexicographic order on char lists by code point — Go's `<` on
strings (byte order; computable by evaluation). -/
def keyLt : List Char → List Char → Bool
  | [], [] => false
  | [], _ :: _ => true
  | _ :: _, [] => false
  | a :: as, b :: bs =>
    if a.toNat < b.toNat then true
    else if b.toNat < a.toNat then false
    else keyLt as bs

/-- Go string comparison `a < b`. -/
def strLt (a b : String) : Bool := keyLt a.data b.data

/-- Prefix test on char lists. -/
def keyPfx : List Char → List Char → Bool
  | [], _ => true
  | _ :: _, [] => false
  | a :: as, b :: bs => if a.toNat = b.toNat then keyPfx as bs else false

/-- Go `strings.HasPrefix`. -/
def hasPfx (p s : String) : Bool := keyPfx p.data s.data

/-- The MST: a key-sorted association list from paths to record CIDs. -/
abbrev Mst := List (String × BCid)

/-- Go `mst.Tree.Get`: the value at a key, if present. -/
def Mst.get : Mst → String → Option BCid
  | [], _ => none
  | (k', v') :: rest, k =>
    if k = k' then some v' else Mst.get rest k

/-- Sorted insertion of a (key, cid) pair, replacing an existing
binding for the key. -/
def Mst.insPos : Mst → String → BCid → Mst
  | [], k, v => [(k, v)]
  | (k', v') :: rest, k, v =>
    if k = k' then (k, v) :: rest
    else if strLt k k' then (k, v) :: (k', v') :: rest
    else (k', v') :: Mst.insPos rest k v

/-- Go `mst.Tree.Insert`: insert a (key, cid) pair keeping the list
sorted; returns the previous value at the key (non-nil on update). -/
def Mst.insert (t : Mst) (k : String) (v : BCid) : Option BCid × Mst :=
  (Mst.get t k, Mst.insPos t k v)

/-- Removal of a key's binding. -/
def Mst.del : Mst → String → Mst
  | [], _ => []
  | (k', v') :: rest, k =>
    if k = k' then rest else (k', v') :: Mst.del rest k

/-- Go `mst.Tree.Remove`: remove a key; returns the previous value
(nil when the key was absent). -/
def Mst.remove (t : Mst) (k : String) : Option BCid × Mst :=
  (Mst.get t k, Mst.del t k)

/-- Go `mst.Tree.WriteDiffBlocks`: serialise the tree's nodes into the
blockstore and return the root CID — deterministic in the logical
contents. -/
def writeDiffBlocks (tree : Mst) (t : TrackingBlockstore) :
    BCid × TrackingBlockstore :=
  (computeCID (.nodeB tree), tbsPut t (.nodeB tree))

/-- Go `mst.LoadTreeFromStore`: materialise the tree whose root CID is
given, failing if the root node block is absent or not a node. -/
def loadTreeFromStore (bs : Store) (root : BCid) : Except String Mst :=
  match bsGet bs root with
  | some (.nodeB es) => .ok es
  | _ => .error "repo: open load mst"

/-!
## Repository engine (`internal/repo/repo.go`)
-/

/-- Go `repoRoot`: the current commit state for a repository
(`repo_roots` row). -/
structure RepoRoot where
  commitCid : BCid
  rev : Rev
deriving DecidableEq, Repr

/-- The tenant database state for one DID: its `repo_roots` row (if
any) and its `repo_blocks` rows. -/
structure RepoState where
  root : Option RepoRoot
  blocks : Store
deriving DecidableEq, Repr

/-- Go `RepoOp`: one record mutation within a commit. -/
structure RepoOp where
  action : String
  path : String
  cid : Option BCid
  prev : Option BCid
deriving DecidableEq, Repr

/-- Go `CommitResult`: everything downstream consumers need.  `prevRev`
is `none` where the Go code uses the empty string. -/
structure CommitResult where
  commitCid : BCid
  rev : Rev
  prevRev : Option Rev
  prevData : Option BCid
  ops : List RepoOp
  diffCar : List CarItem
deriving DecidableEq, Repr

/-- Go `loadRoot`: read the `repo_roots` row, failing with "no
repository" when absent. -/
def loadRoot (s : RepoState) : Except String RepoRoot :=
  match s.root with
  | none => .error "repo: no repository"
  | some r => .ok r

/-- Go `setRoot`: upsert the `repo_roots` row. -/
def setRoot (s : RepoState) (c : BCid) (rev : Rev) : RepoState :=
  { s with root := some ⟨c, rev⟩ }

/-- Go `GetRoot`: the current commit CID and rev for a DID. -/
def getRoot (s : RepoState) : Except String (BCid × Rev) :=
  (loadRoot s).map (fun r => (r.commitCid, r.rev))

/-- The signature of a commit: deterministic in the signing key and the
unsigned fields (stands in for the RFC-6979-style ECDSA of
`commit.Sign`). -/
def signCommit (key : Nat) (c : Commit) : List Nat :=
  key :: computeCID (.commitB { c with sig := [] })

/-- Go `storeCommitBlock`: encode the commit, compute its CID, and store
the block directly in the blockstore map. -/
def storeCommitBlock (bs : Store) (c : Commit) : BCid × Store :=
  (computeCID (.commitB c), bsPut bs (.commitB c))

/-- Go `openRepo`: load the root and all blocks, decode the current commit
to find the MST root, wrap the store in a `TrackingBlockstore`
(snapshotting the loaded keys as preloaded) and materialise the tree. -/
def openRepo (s : RepoState) :
    Except String (TrackingBlockstore × Mst × RepoRoot) :=
  match loadRoot s with
  | .error e => .error e
  | .ok root =>
    let bs := s.blocks
    match bsGet bs root.commitCid with
    | none => .error "repo: open get commit block"
    | some (.recB _) => .error "repo: open unmarshal commit"
    | some (.nodeB _) => .error "repo: open unmarshal commit"
    | some (.commitB commit) =>
      let tbs := newTrackingBlockstore bs
      match loadTreeFromStore tbs.mem commit.data with
      | .error e => .error e
      | .ok tree => .ok (tbs, tree, root)

/-- Go `commitRepo`: write dirty MST nodes, build prev pointers and
`prevData` from the old commit, generate a rev from a *fresh* TID clock
read at `now`, sign and store the new commit, export the diff CAR,
persist all blocks and update the root. -/
def commitRepo (did : String) (key : Nat) (tbs : TrackingBlockstore)
    (tree : Mst) (prevRoot : Option RepoRoot) (ops : List RepoOp)
    (now : Nat) (s : RepoState) :
    Except String (CommitResult × RepoState) :=
  let wd := writeDiffBlocks tree tbs
  let mstRoot := wd.1
  let tbs := wd.2
  let prevCID : Option BCid := prevRoot.map (·.commitCid)
  let prevRev : Option Rev := prevRoot.map (·.rev)
  let prevData : Option BCid :=
    match prevRoot with
    | none => none
    | some r =>
      match bsGet tbs.mem r.commitCid with
      | some (.commitB oldCommit) => some oldCommit.data
      | _ => none
  let clock := TIDClock.new 0
  let rev := (clock.next now).1
  let unsigned : Commit :=
    { did := did, version := 3, prev := prevCID, data := mstRoot,
      rev := rev, sig := [] }
  let commit := { unsigned with sig := signCommit key unsigned }
  let sc := storeCommitBlock tbs.mem commit
  let commitCid := sc.1
  let tbs := { tbs with mem := sc.2 }
  let diff := exportDiffCAR tbs commitCid
  match diff.2 with
  | .error e => .error e
  | .ok _ =>
    let s := { s with blocks := persistAll tbs.mem s.blocks }
    let s := setRoot s commitCid rev
    .ok ({ commitCid := commitCid, rev := rev, prevRev := prevRev,
           prevData := prevData, ops := ops, diffCar := diff.1 },
         s)

/-- The write phase of `PutRecord` after `openRepo` (the body from the
record-block `Put` through `commitRepo`); `PutRecord` itself is
`openRepo` followed by this. -/
def putRecordWith (did : String) (key : Nat) (collection rkey : String)
    (record : List Nat) (now : Nat)
    (tbs : TrackingBlockstore) (tree : Mst) (root : RepoRoot)
    (s : RepoState) :
    Except String (String × CommitResult × RepoState) :=
  let recordCID := computeCID (.recB record)
  let tbs := tbsPut tbs (.recB record)
  let path := collection ++ "/" ++ rkey
  let ins := Mst.insert tree path recordCID
  let prev := ins.1
  let tree := ins.2
  let action := if prev.isSome then "update" else "create"
  let ops : List RepoOp :=
    [{ action := action, path := path, cid := some recordCID,
       prev := prev }]
  match commitRepo did key tbs tree (some root) ops now s with
  | .error e => .error e
  | .ok rs =>
    let atURI := "at://" ++ did ++ "/" ++ collection ++ "/" ++ rkey
    .ok (atURI, rs.1, rs.2)

/-- Go `PutRecord`: create or update a record at a specific rkey.
`record` is the canonical CBOR encoding of the parsed record. -/
def putRecord (did : String) (key : Nat) (collection rkey : String)
    (record : List Nat) (now : Nat) (s : RepoState) :
    Except String (String × CommitResult × RepoState) :=
  match openRepo s with
  | .error e => .error e
  | .ok o => putRecordWith did key collection rkey record now o.1 o.2.1 o.2.2 s

/-- Go `CreateRecord`: generate a TID rkey from a fresh clock read at
`nowRkey` and delegate to `PutRecord`, whose commit reads the clock
again at `nowCommit`. -/
def createRecord (did : String) (key : Nat) (collection : String)
    (record : List Nat) (nowRkey nowCommit : Nat) (s : RepoState) :
    Except String (String × CommitResult × RepoState) :=
  let clock := TIDClock.new 0
  let rkey := tidStr (clock.next nowRkey).1
  putRecord did key collection rkey record nowCommit s

/-- Go `DeleteRecord`: remove a record, failing with record-not-found when
the key is absent, otherwise committing a delete op. -/
def deleteRecord (did : String) (key : Nat) (collection rkey : String)
    (now : Nat) (s : RepoState) :
    Except String (CommitResult × RepoState) :=
  match openRepo s with
  | .error e => .error e
  | .ok o =>
    let tbs := o.1
    let tree := o.2.1
    let root := o.2.2
    let path := collection ++ "/" ++ rkey
    let rm := Mst.remove tree path
    match rm.1 with
    | none => .error ("repo: record not found: " ++ path)
    | some prev =>
      let ops : List RepoOp :=
        [{ action := "delete", path := path, cid := none,
           prev := some prev }]
      commitRepo did key tbs rm.2 (some root) ops now s

/-- The database state after a `DeleteRecord` call: on any error the
engine has not reached `PersistAll`/`setRoot`, so the tenant database
is unchanged. -/
def runDeleteRecord (did : String) (key : Nat) (collection rkey : String)
    (now : Nat) (s : RepoState) : RepoState :=
  match deleteRecord did key collection rkey now s with
  | .ok r => r.2
  | .error _ => s

/-- Go `InitRepo`: idempotent — if a root exists, return the state
unchanged; otherwise write an empty MST, sign an initial commit with
prev=nil and a fresh-clock rev, persist, and set the root. -/
def initRepo (did : String) (key : Nat) (now : Nat) (s : RepoState) :
    RepoState :=
  match s.root with
  | some _ => s
  | none =>
    let bs : Store := []
    let tree : Mst := []
    let mstRoot := computeCID (.nodeB tree)
    let bs := bsPut bs (.nodeB tree)
    let clock := TIDClock.new 0
    let rev := (clock.next now).1
    let unsigned : Commit :=
      { did := did, version := 3, prev := none, data := mstRoot,
        rev := rev, sig := [] }
    let commit := { unsigned with sig := signCommit key unsigned }
    let sc := storeCommitBlock bs commit
    let s := { s with blocks := persistAll sc.2 s.blocks }
    setRoot s sc.1 rev

/-- A single record in a `ListRecords` response. -/
structure RecordEntry where
  uri : String
  cid : BCid
  val : List Nat
deriving DecidableEq, Repr

/-- Go `strings.TrimPrefix`. -/
def trimPfx (pfx s : String) : String :=
  if hasPfx pfx s then String.mk (s.data.drop pfx.data.length) else s

/-- The record-collection loop of `ListRecords`: fetch and decode each
entry's block, stopping at `limit` records; when the limit is reached
with entries remaining, the next cursor is the rkey of the last record
returned. -/
def listLoop (bs : Store) (did pfx : String) :
    List (String × BCid) → Nat →
    Except String (List RecordEntry × String)
  | _, 0 => .ok ([], "")
  | [], _ => .ok ([], "")
  | (k, v) :: rest, limit + 1 =>
    match bsGet bs v with
    | none => .error "repo: list get block"
    | some (.recB r) =>
      let e : RecordEntry := ⟨"at://" ++ did ++ "/" ++ k, v, r⟩
      if limit = 0 then
        .ok ([e], if rest.isEmpty then "" else trimPfx pfx k)
      else
        match listLoop bs did pfx rest limit with
        | .error msg => .error msg
        | .ok (es, nc) => .ok (e :: es, nc)
    | some _ => .error "repo: list decode"

/-- Go `ListRecords`: open the repo, walk the MST collecting entries
with the `collection/` prefix (reversed if requested), skip entries up
to and including the cursor — if the cursor matches no entry the start
index stays 0 — coerce an out-of-range limit to 50, and return up to
`limit` records with the follow-up cursor. -/
def listRecords (did collection : String) (limit : Int) (cursor : String)
    (reverse : Bool) (s : RepoState) :
    Except String (List RecordEntry × String) :=
  match openRepo s with
  | .error e => .error e
  | .ok o =>
  let bs := o.1.mem
  let tree := o.2.1
  let pfx := collection ++ "/"
  let entries := tree.filter (fun e => hasPfx pfx e.1)
  let entries := if reverse then entries.reverse else entries
  let startIdx :=
    if cursor = "" then 0
    else
      match entries.findIdx? (fun e => e.1 = pfx ++ cursor) with
      | some i => i + 1
      | none => 0
  let lim : Nat := if limit ≤ 0 ∨ 100 < limit then 50 else limit.toNat
  listLoop bs did pfx (entries.drop startIdx) lim

/-- The paths present in a collection of a repository (the MST keys
with the `collection/` prefix), empty when the repo cannot be opened —
the universe the `ListRecords` cursor is matched against. -/
def collectionPaths (collection : String) (s : RepoState) : List String :=
  match openRepo s with
  | .ok (_, tree, _) =>
    (tree.filter (fun e => hasPfx (collection ++ "/") e.1)).map (·.1)
  | .error _ => []

/-!
## Firehose event pipeline (`internal/events`, `internal/server`)

The subscriber-facing behaviour of `Manager.Subscribe`, `Manager.Emit`
and `Persister.Replay` is modelled as a small-step system over one
subscriber.  Frames are identified by their seq number (the frame bytes
are a function of the persisted commit and its seq).  The schedule of
atomic actions makes the concurrency of the replay goroutine explicit:
`Subscribe` registers the subscriber, the replay goroutine later runs
the `seq > since` query against the log as it then stands
(`replayQuery`) and pushes the resulting frames one at a time into the
same channel that `broadcast` appends live frames to (`replayPush`).
-/

/-- The one modelled subscriber of the event manager.  `chan` is the
content of the subscriber channel (delivered frames, by seq);
`pending` are the frames the replay goroutine has read but not yet
pushed.  `liveLog`, `replayLog` and `queriedStored` are observation
(ghost) fields recording which frames arrived via broadcast, which via
replay, and what the log contained when the replay query ran. -/
structure SubState where
  cursor : Nat
  registered : Bool
  queried : Bool
  pending : List Nat
  chan : List Nat
  liveLog : List Nat
  replayLog : List Nat
  queriedStored : List Nat
deriving DecidableEq, Repr

/-- Event-manager state: the persisted `firehose_events` log (seqs in
insertion order, BIGSERIAL ascending), the next seq the database will
assign, and the subscriber. -/
structure FhState where
  stored : List Nat
  nextSeq : Nat
  sub : SubState
deriving DecidableEq, Repr

/-- Initial manager state: empty log, seqs from 1, no subscriber. -/
def FhState.init : FhState :=
  ⟨[], 1, ⟨0, false, false, [], [], [], [], []⟩⟩

/-- One atomic action of the pipeline: `emit` (persist an event, then
broadcast its frame), `subscribe k` (register the subscriber with
cursor `k`), `replayQuery` (the replay goroutine runs its `seq > k`
query), `replayPush` (the replay goroutine sends one replayed frame
into the subscriber channel). -/
inductive FhAction where
  | emit
  | subscribe (k : Nat)
  | replayQuery
  | replayPush
deriving DecidableEq, Repr

/-- The step function of the pipeline. -/
def fhStep (st : FhState) : FhAction → FhState
  | .emit =>
    let s := st.nextSeq
    let st := { st with stored := st.stored ++ [s], nextSeq := s + 1 }
    if st.sub.registered then
      let sub :=
        { st.sub with
            chan := st.sub.chan ++ [s]
            liveLog := st.sub.liveLog ++ [s] }
      { st with sub := sub }
    else st
  | .subscribe k =>
    if st.sub.registered then st
    else { st with sub := { st.sub with cursor := k, registered := true } }
  | .replayQuery =>
    if st.sub.registered ∧ ¬ st.sub.queried then
      let sub :=
        { st.sub with
            queried := true
            pending := st.stored.filter (fun s => st.sub.cursor < s)
            queriedStored := st.stored }
      { st with sub := sub }
    else st
  | .replayPush =>
    match st.sub.pending with
    | [] => st
    | p :: rest =>
      let sub :=
        { st.sub with
            pending := rest
            chan := st.sub.chan ++ [p]
            replayLog := st.sub.replayLog ++ [p] }
      { st with sub := sub }

/-- Run a schedule of actions from the initial state. -/
def fhRun (acts : List FhAction) : FhState :=
  acts.foldl fhStep FhState.init

/-!
## Server glue (`internal/server`, `xrpc_repo.go` handlers)
-/

/-- A frame row as persisted and broadcast by `events.Manager.Emit`. -/
structure FhFrame where
  seq : Nat
  did : String
  rev : Rev
  commitCid : BCid
deriving DecidableEq, Repr

/-- Go `events.Manager.Emit`: persist the commit event (the database
assigns the next seq) and broadcast; returns an error only when
persistence fails (`persistFails` stands for the database insert
failing). -/
def eventsEmit (fh : List FhFrame) (did : String) (res : CommitResult)
    (persistFails : Bool) : Except String (List FhFrame) :=
  if persistFails then .error "events: persist"
  else .ok (fh ++ [⟨fh.length + 1, did, res.rev, res.commitCid⟩])

/-- Go `Server.emitCommitEvent`: converts the `CommitResult` and calls
`Emit`; per its documentation, errors are logged but not returned —
the firehose log is simply left as it was. -/
def emitCommitEvent (fh : List FhFrame) (did : String)
    (res : CommitResult) (persistFails : Bool) : List FhFrame :=
  match eventsEmit fh did res persistFails with
  | .ok fh2 => fh2
  | .error _ => fh

/-- The HTTP response of a record-mutation handler: 200 with the uri
and commit info, or an error JSON with a status code. -/
inductive HttpResp where
  | okJson (uri : String) (c : BCid) (rev : Rev)
  | errJson (status : Nat) (code : String)
deriving DecidableEq, Repr

/-- Go `handlePutRecord` after auth and tenant resolution: call
`PutRecord`; on error answer 500; on success call `emitCommitEvent`
(whose failure is not observed) and answer 200 with the commit info. -/
def handlePutRecord (did : String) (key : Nat) (collection rkey : String)
    (record : List Nat) (now : Nat) (s : RepoState)
    (fh : List FhFrame) (persistFails : Bool) :
    HttpResp × RepoState × List FhFrame :=
  match putRecord did key collection rkey record now s with
  | .error _ => (.errJson 500 "InternalError", s, fh)
  | .ok (uri, res, s2) =>
    (.okJson uri res.commitCid res.rev, s2,
     emitCommitEvent fh did res persistFails)

/-!
## Supporting lemmas
-/

/-- Storing a block and reading its CID back yields the block. -/
theorem bsGet_bsPut_self (bs : Store) (v : BlockVal) :
    bsGet (bsPut bs v) (computeCID v) = some v := by
  simp [bsGet, bsPut, List.find?]

/-- Membership in a store after a put: the new block under its CID,
plus every old block whose CID was not overwritten. -/
theorem mem_bsPut (bs : Store) (v : BlockVal) (c : BCid) (w : BlockVal) :
    (c, w) ∈ bsPut bs v ↔
      (c = computeCID v ∧ w = v) ∨ ((c, w) ∈ bs ∧ ¬ c = computeCID v) := by
  simp [bsPut, List.mem_cons, List.mem_filter, Prod.mk.injEq]

/-- A member's CID is among the store's keys. -/
theorem mem_bsKeys_of_mem (bs : Store) (c : BCid) (w : BlockVal)
    (h : (c, w) ∈ bs) : c ∈ bsKeys bs := by
  simp only [bsKeys, List.mem_map]
  exact ⟨(c, w), h, rfl⟩

/-- CIDs of record blocks and node blocks never collide (distinct
codec tags). -/
theorem computeCID_rec_ne_node (a : List Nat) (es : List (String × BCid)) :
    computeCID (.recB a) ≠ computeCID (.nodeB es) := by
  simp [computeCID]

/-- CIDs of record blocks and commit blocks never collide (distinct
codec tags). -/
theorem computeCID_rec_ne_commit (a : List Nat) (cm : Commit) :
    computeCID (.recB a) ≠ computeCID (.commitB cm) := by
  intro h
  have := congrArg List.head? h
  simp [computeCID, encStr, encBytes] at this

/-- Inversion of a successful `openRepo`: the root row was present, the
tracking store snapshots exactly the loaded blocks, the commit block
decodes, and the tree is the stored node for the commit's data CID. -/
theorem openRepo_ok_inv (s : RepoState) (tbs : TrackingBlockstore)
    (tree : Mst) (root : RepoRoot)
    (h : openRepo s = .ok (tbs, tree, root)) :
    s.root = some root ∧ tbs = newTrackingBlockstore s.blocks ∧
      ∃ cm, bsGet s.blocks root.commitCid = some (.commitB cm) ∧
        bsGet s.blocks cm.data = some (.nodeB tree) := by
  unfold openRepo loadRoot at h
  cases hr : s.root with
  | none => rw [hr] at h; exact absurd h (by simp)
  | some r =>
    rw [hr] at h
    simp only at h
    cases hg : bsGet s.blocks r.commitCid with
    | none => rw [hg] at h; exact absurd h (by simp)
    | some bv =>
      rw [hg] at h
      cases bv with
      | recB b => exact absurd h (by simp)
      | nodeB es => exact absurd h (by simp)
      | commitB cm =>
        simp only [loadTreeFromStore, newTrackingBlockstore] at h
        cases hd : bsGet s.blocks cm.data with
        | none => rw [hd] at h; exact absurd h (by simp)
        | some dv =>
          rw [hd] at h
          cases dv with
          | recB b => exact absurd h (by simp)
          | nodeB es =>
            simp only [Except.ok.injEq, Prod.mk.injEq] at h
            obtain ⟨h1, h2, h3⟩ := h
            subst h1; subst h2; subst h3
            exact ⟨rfl, rfl, cm, hg, hd⟩
          | commitB cm2 => exact absurd h (by simp)

/-- Inversion of a successful `commitRepo`: the result carries the
given ops, the rev read from a fresh TID clock at `now`, and the state
root is updated to the new commit. -/
theorem commitRepo_ok_inv (did : String) (key : Nat)
    (tbs : TrackingBlockstore) (tree : Mst) (prevRoot : Option RepoRoot)
    (ops : List RepoOp) (now : Nat) (s : RepoState)
    (res : CommitResult) (s2 : RepoState)
    (h : commitRepo did key tbs tree prevRoot ops now s = .ok (res, s2)) :
    res.ops = ops ∧ res.rev = ((TIDClock.new 0).next now).1 ∧
      s2.root = some ⟨res.commitCid, res.rev⟩ ∧
      res.prevRev = prevRoot.map (·.rev) := by
  unfold commitRepo at h
  simp only at h
  split at h
  · exact absurd h (by simp)
  · simp only [Except.ok.injEq, Prod.mk.injEq] at h
    obtain ⟨h1, h2⟩ := h
    subst h1; subst h2
    exact ⟨rfl, rfl, rfl, rfl⟩

/-- Inversion of a successful `putRecordWith`: the returned at-URI, the
single op (update when the key was bound, create otherwise, with the
new record CID and the previous CID), the fresh-clock rev, and the
updated root. -/
theorem putRecordWith_ok_inv (did : String) (key : Nat)
    (collection rkey : String) (record : List Nat) (now : Nat)
    (tbs : TrackingBlockstore) (tree : Mst) (root : RepoRoot)
    (s : RepoState) (uri : String) (res : CommitResult) (s2 : RepoState)
    (h : putRecordWith did key collection rkey record now tbs tree root s
        = .ok (uri, res, s2)) :
    uri = "at://" ++ did ++ "/" ++ collection ++ "/" ++ rkey ∧
      res.ops =
        [{ action :=
             if (Mst.get tree (collection ++ "/" ++ rkey)).isSome
             then "update" else "create",
           path := collection ++ "/" ++ rkey,
           cid := some (computeCID (.recB record)),
           prev := Mst.get tree (collection ++ "/" ++ rkey) }] ∧
      res.rev = ((TIDClock.new 0).next now).1 ∧
      s2.root = some ⟨res.commitCid, res.rev⟩ := by
  unfold putRecordWith at h
  simp only [Mst.insert] at h
  cases hc : commitRepo did key (tbsPut tbs (.recB record))
      (Mst.insPos tree (collection ++ "/" ++ rkey)
        (computeCID (.recB record)))
      (some root)
      [{ action :=
           if (Mst.get tree (collection ++ "/" ++ rkey)).isSome
           then "update" else "create",
         path := collection ++ "/" ++ rkey,
         cid := some (computeCID (.recB record)),
         prev := Mst.get tree (collection ++ "/" ++ rkey) }]
      now s with
  | error e => rw [hc] at h; exact absurd h (by simp)
  | ok rs =>
    rw [hc] at h
    simp only [Except.ok.injEq, Prod.mk.injEq] at h
    obtain ⟨h1, h2, h3⟩ := h
    subst h1
    have hi := commitRepo_ok_inv _ _ _ _ _ _ _ _ rs.1 rs.2 (by rw [hc])
    refine ⟨rfl, ?_, ?_, ?_⟩
    · rw [← h2]; exact hi.1
    · rw [← h2]; exact hi.2.1
    · rw [← h2, ← h3]; exact hi.2.2.1

/-- Inversion of a successful `putRecord` in terms of the open-time
tree. -/
theorem putRecord_ok_inv (did : String) (key : Nat)
    (collection rkey : String) (record : List Nat) (now : Nat)
    (s : RepoState) (tbs : TrackingBlockstore) (tree : Mst)
    (root : RepoRoot) (uri : String) (res : CommitResult) (s2 : RepoState)
    (hopen : openRepo s = .ok (tbs, tree, root))
    (h : putRecord did key collection rkey record now s
        = .ok (uri, res, s2)) :
    uri = "at://" ++ did ++ "/" ++ collection ++ "/" ++ rkey ∧
      res.ops =
        [{ action :=
             if (Mst.get tree (collection ++ "/" ++ rkey)).isSome
             then "update" else "create",
           path := collection ++ "/" ++ rkey,
           cid := some (computeCID (.recB record)),
           prev := Mst.get tree (collection ++ "/" ++ rkey) }] ∧
      res.rev = ((TIDClock.new 0).next now).1 ∧
      s2.root = some ⟨res.commitCid, res.rev⟩ := by
  unfold putRecord at h
  rw [hopen] at h
  exact putRecordWith_ok_inv did key collection rkey record now
    tbs tree root s uri res s2 h

/-!
## Example states used by concrete theorems and witnesses
-/

/-- A tenant database with no repository. -/
def exEmpty : RepoState := ⟨none, []⟩

/-- An initialised empty repository for DID `d` (signing key 7,
initial commit at microsecond 1). -/
def exS1 : RepoState := initRepo "d" 7 1 exEmpty

/-- The repository after one record has been created at `c/k1`
(committed at microsecond 2). -/
def exS2 : RepoState :=
  match putRecord "d" 7 "c" "k1" [9] 2 exS1 with
  | .ok r => r.2.2
  | .error _ => exS1

/-!
## Claim theorems
-/

/-- C9: in both `ExportCAR` and `ExportDiffCAR` the CAR v1 header
(version 1, roots = [commit CID]) is written to the sink before the
commit block's presence is checked, so when the commit block is absent
the call returns a commit-block-not-found error while the sink has
already received the header — export failure is not atomic with
respect to the output sink. -/
theorem export_header_written_before_commit_check
    (bs : Store) (t : TrackingBlockstore) (c : BCid)
    (h1 : bsGet bs c = none) (h2 : bsGet t.mem c = none) :
    exportCAR bs c =
      ([CarItem.header 1 [c]],
       Except.error "blockstore: commit block not found") ∧
    exportDiffCAR t c =
      ([CarItem.header 1 [c]],
       Except.error "blockstore: commit block not found") := by
  constructor
  · unfold exportCAR; rw [h1]
  · unfold exportDiffCAR; rw [h2]

/-- Witness for C9 at the empty stores and the CID `[0]`. -/
theorem export_header_written_before_commit_check_witness :
    exportCAR [] [0] =
      ([CarItem.header 1 [[0]]],
       Except.error "blockstore: commit block not found") ∧
    exportDiffCAR ⟨[], []⟩ [0] =
      ([CarItem.header 1 [[0]]],
       Except.error "blockstore: commit block not found") :=
  export_header_written_before_commit_check [] ⟨[], []⟩ [0] rfl rfl

/-- C7: `DeleteRecord` on a key with no record returns a
record-not-found error, creates no commit and persists nothing: the
tenant database is unchanged and `GetRoot` afterwards returns the same
commit CID and rev as before the call. -/
theorem deleteRecord_absent_key_no_commit
    (did : String) (key : Nat) (collection rkey : String) (now : Nat)
    (s : RepoState) (tbs : TrackingBlockstore) (tree : Mst)
    (root : RepoRoot)
    (hopen : openRepo s = .ok (tbs, tree, root))
    (habs : Mst.get tree (collection ++ "/" ++ rkey) = none) :
    deleteRecord did key collection rkey now s =
      .error ("repo: record not found: " ++ (collection ++ "/" ++ rkey)) ∧
    runDeleteRecord did key collection rkey now s = s ∧
    getRoot (runDeleteRecord did key collection rkey now s) = getRoot s := by
  have hdel : deleteRecord did key collection rkey now s =
      .error ("repo: record not found: " ++ (collection ++ "/" ++ rkey)) := by
    unfold deleteRecord
    rw [hopen]
    simp only [Mst.remove, habs]
  have hrun : runDeleteRecord did key collection rkey now s = s := by
    unfold runDeleteRecord
    rw [hdel]
  exact ⟨hdel, hrun, by rw [hrun]⟩

/-- Witness for C7: deleting the absent `c/zz` from the initialised
example repository. -/
theorem deleteRecord_absent_key_no_commit_witness :
    ∃ tbs tree root, openRepo exS1 = .ok (tbs, tree, root) ∧
      deleteRecord "d" 7 "c" "zz" 3 exS1 =
        .error ("repo: record not found: " ++ ("c" ++ "/" ++ "zz")) ∧
      runDeleteRecord "d" 7 "c" "zz" 3 exS1 = exS1 := by
  refine ⟨_, _, _, rfl, ?_⟩
  have h := deleteRecord_absent_key_no_commit "d" 7 "c" "zz" 3 exS1
    _ _ _ rfl rfl
  exact ⟨h.1, h.2.1⟩

/-- C8: a successful `PutRecord` reports exactly one op with path
`collection/rkey` and cid the new record's CID; when a record already
exists at that key the op action is "update" and prev is the replaced
record's CID, otherwise the action is "create" and prev is nil. -/
theorem putRecord_single_op_update_or_create
    (did : String) (key : Nat) (collection rkey : String)
    (record : List Nat) (now : Nat) (s : RepoState)
    (tbs : TrackingBlockstore) (tree : Mst) (root : RepoRoot)
    (uri : String) (res : CommitResult) (s2 : RepoState)
    (hopen : openRepo s = .ok (tbs, tree, root))
    (hput : putRecord did key collection rkey record now s
        = .ok (uri, res, s2)) :
    (∀ p, Mst.get tree (collection ++ "/" ++ rkey) = some p →
       res.ops = [{ action := "update", path := collection ++ "/" ++ rkey,
                    cid := some (computeCID (.recB record)),
                    prev := some p }]) ∧
    (Mst.get tree (collection ++ "/" ++ rkey) = none →
       res.ops = [{ action := "create", path := collection ++ "/" ++ rkey,
                    cid := some (computeCID (.recB record)),
                    prev := none }]) := by
  have hi := putRecord_ok_inv did key collection rkey record now s
    tbs tree root uri res s2 hopen hput
  constructor
  · intro p hp
    rw [hi.2.1, hp]
    simp
  · intro hp
    rw [hi.2.1, hp]
    simp

set_option maxRecDepth 16384

/-- Witness for C8: updating the existing record at `c/k1` in the
example repository reports an "update" op carrying the replaced CID,
and creating at the absent `c/k2` reports a "create" op. -/
theorem putRecord_single_op_update_or_create_witness :
    ∃ tbs tree root u1 r1 t1 u2 r2 t2,
      openRepo exS2 = .ok (tbs, tree, root) ∧
      putRecord "d" 7 "c" "k1" [5] 9 exS2 = .ok (u1, r1, t1) ∧
      r1.ops = [{ action := "update", path := "c" ++ "/" ++ "k1",
                  cid := some (computeCID (.recB [5])),
                  prev := some (computeCID (.recB [9])) }] ∧
      putRecord "d" 7 "c" "k2" [5] 9 exS2 = .ok (u2, r2, t2) ∧
      r2.ops = [{ action := "create", path := "c" ++ "/" ++ "k2",
                  cid := some (computeCID (.recB [5])),
                  prev := none }] := by
  refine ⟨_, _, _, _, _, _, _, _, _, rfl, rfl, ?_, rfl, ?_⟩
  · exact (putRecord_single_op_update_or_create "d" 7 "c" "k1" [5] 9 exS2
      _ _ _ _ _ _ rfl rfl).1 (computeCID (.recB [9])) rfl
  · exact (putRecord_single_op_update_or_create "d" 7 "c" "k2" [5] 9 exS2
      _ _ _ _ _ _ rfl rfl).2 rfl

/-- C10: a `ListRecords` call with a non-empty cursor that matches no
record key in the collection silently restarts from the first entry:
the result (records and next cursor) equals the result for an empty
cursor, and no error is reported. -/
theorem listRecords_unknown_cursor_restarts
    (did collection : String) (limit : Int) (cursor : String)
    (reverse : Bool) (s : RepoState)
    (hc : ¬ cursor = "")
    (hmem : ¬ (collection ++ "/" ++ cursor) ∈ collectionPaths collection s) :
    listRecords did collection limit cursor reverse s =
      listRecords did collection limit "" reverse s := by
  unfold listRecords
  cases hopen : openRepo s with
  | error e => rfl
  | ok o =>
    unfold collectionPaths at hmem
    rw [hopen] at hmem
    simp only []
    have hf :
        ((if reverse then
            (o.2.1.filter
              (fun e => hasPfx (collection ++ "/") e.1)).reverse
          else
            o.2.1.filter
              (fun e => hasPfx (collection ++ "/") e.1))).findIdx?
          (fun e => e.1 = (collection ++ "/") ++ cursor) = none := by
      rw [List.findIdx?_eq_none_iff]
      intro x hx
      have hx2 : x ∈ o.2.1.filter
          (fun e => hasPfx (collection ++ "/") e.1) := by
        cases reverse with
        | true =>
          simp only [List.mem_reverse] at hx
          simpa using hx
        | false => simpa using hx
      have hkey : x.1 ∈
          (o.2.1.filter
            (fun e => hasPfx (collection ++ "/") e.1)).map (·.1) :=
        List.mem_map.mpr ⟨x, hx2, rfl⟩
      have hne : ¬ x.1 = (collection ++ "/") ++ cursor := by
        intro he
        exact hmem (by rw [← he] at hmem ⊢; exact hkey)
      simpa using hne
    rw [if_neg hc, hf]
    simp

/-- Witness for C10: listing with the unknown cursor `zz` over the
one-record example repository returns the same page as an empty
cursor. -/
theorem listRecords_unknown_cursor_restarts_witness :
    ¬ ("zz" : String) = "" ∧
    ¬ ("c" ++ "/" ++ "zz") ∈ collectionPaths "c" exS2 ∧
    listRecords "d" "c" 50 "zz" false exS2 =
      listRecords "d" "c" 50 "" false exS2 :=
  ⟨by decide, by decide,
   listRecords_unknown_cursor_restarts "d" "c" 50 "zz" false exS2
     (by decide) (by decide)⟩

/-- C1 (failing execution): the repository engine takes no per-DID
lock — `Manager` is stateless and `PutRecord`/`DeleteRecord` contain
no mutex — so two concurrent writers on the same DID can both run
`openRepo` against the same root before either commits.  In that
interleaving the second commit's `prev` equals the original root, not
the first writer's commit CID: the commits do not form a chain, and
the first write's record is lost from the MST. -/
theorem concurrent_put_without_lock_breaks_chain :
    ∃ tbs tree root0 u1 res1 s1 u2 res2 s2 cm2,
      openRepo exS1 = .ok (tbs, tree, root0) ∧
      putRecordWith "d" 7 "c" "k1" [1] 2 tbs tree root0 exS1
        = .ok (u1, res1, s1) ∧
      putRecordWith "d" 7 "c" "k2" [2] 3 tbs tree root0 s1
        = .ok (u2, res2, s2) ∧
      bsGet s2.blocks res2.commitCid = some (.commitB cm2) ∧
      cm2.prev = some root0.commitCid ∧
      ¬ cm2.prev = some res1.commitCid ∧
      collectionPaths "c" s2 = ["c" ++ "/" ++ "k2"] := by
  refine ⟨_, _, _, _, _, _, _, _, _, _, rfl, rfl, rfl, rfl, rfl, ?_, ?_⟩
  · decide
  · rfl

/-- C2 (failing execution): `InitRepo` and `commitRepo` each construct
a *fresh* TID clock (`syntax.NewTIDClock(0)`) and read it once, so two
successive commits on the same DID performed in the same wall-clock
microsecond (here microsecond 5) receive identical revs — the later
commit's rev does not compare strictly greater than its
predecessor's. -/
theorem successive_commits_same_micros_equal_revs :
    ∃ uri res s2 r0,
      (initRepo "d" 7 5 exEmpty).root = some r0 ∧
      putRecord "d" 7 "c" "k1" [1] 5 (initRepo "d" 7 5 exEmpty)
        = .ok (uri, res, s2) ∧
      r0.rev = 5 ∧ res.rev = 5 ∧ ¬ r0.rev < res.rev := by
  refine ⟨_, _, _, _, rfl, rfl, rfl, rfl, ?_⟩
  decide

/-- Two revisions generated in sequence on a *shared* TID clock do
compare strictly less-than (the spec's `next_revision()` contract);
the engine's failure mode in the theorem above comes solely from
instantiating a fresh clock per commit. -/
theorem tid_clock_next_strictMono (c : TIDClock) (n1 n2 : Nat) :
    (c.next n1).1 < ((c.next n1).2.next n2).1 := by
  unfold TIDClock.next
  dsimp only
  split_ifs with h1 h2 h3
  · exact Nat.lt_succ_self _
  · exact Nat.gt_of_not_le h2
  · exact Nat.lt_succ_self _
  · exact Nat.gt_of_not_le h3

/-- C6 (counterexample): `CreateRecord` generates its rkey from one
fresh TID clock and `commitRepo` generates the commit's rev from
another, read later; at rkey-time microsecond 2 and commit-time
microsecond 3 the returned at-URI carries rkey `2` while the commit's
rev is `3` — the rkey does not equal the rev of the commit. -/
theorem createRecord_rkey_differs_from_rev :
    ∃ res s2,
      createRecord "d" 7 "c" [9] 2 3 exS1
        = .ok ("at://" ++ "d" ++ "/" ++ "c" ++ "/" ++ tidStr 2, res, s2) ∧
      res.rev = 3 ∧ ¬ tidStr res.rev = tidStr 2 := by
  refine ⟨_, _, rfl, rfl, ?_⟩
  decide

/-- C6 (amended): for every successful `CreateRecord`, the rkey
component of the returned at-URI is the TID issued by a fresh clock
read at rkey-generation time, and the commit's rev is the TID issued
by a second, independent fresh clock read at commit time — the two are
generated separately rather than shared. -/
theorem createRecord_rkey_and_rev_independent
    (did : String) (key : Nat) (collection : String) (record : List Nat)
    (nowRkey nowCommit : Nat) (s : RepoState)
    (uri : String) (res : CommitResult) (s2 : RepoState)
    (h : createRecord did key collection record nowRkey nowCommit s
        = .ok (uri, res, s2)) :
    uri = "at://" ++ did ++ "/" ++ collection ++ "/"
            ++ tidStr ((TIDClock.new 0).next nowRkey).1 ∧
    res.rev = ((TIDClock.new 0).next nowCommit).1 := by
  unfold createRecord putRecord at h
  cases hopen : openRepo s with
  | error e => rw [hopen] at h; exact absurd h (by simp)
  | ok o =>
    rw [hopen] at h
    have hi := putRecordWith_ok_inv did key collection
      (tidStr ((TIDClock.new 0).next nowRkey).1) record nowCommit
      o.1 o.2.1 o.2.2 s uri res s2 h
    exact ⟨hi.1, hi.2.2.1⟩

/-- Witness for the amended C6 at concrete inputs. -/
theorem createRecord_rkey_and_rev_independent_witness :
    ∃ uri res s2,
      createRecord "d" 7 "c" [9] 2 3 exS1 = .ok (uri, res, s2) ∧
      uri = "at://" ++ "d" ++ "/" ++ "c" ++ "/"
              ++ tidStr ((TIDClock.new 0).next 2).1 ∧
      res.rev = ((TIDClock.new 0).next 3).1 := by
  refine ⟨_, _, _, rfl, ?_⟩
  exact createRecord_rkey_and_rev_independent "d" 7 "c" [9] 2 3 exS1
    _ _ _ rfl

/-- C5 (counterexample): when the commit succeeds but the firehose
persist fails (`persistFails = true`), the mutation handler still
answers with the 200 success response carrying the new commit — the
emission failure is not returned to the caller (and no frame is
persisted). -/
theorem emit_failure_not_returned_example :
    ∃ uri res s2,
      putRecord "d" 7 "c" "k1" [9] 2 exS1 = .ok (uri, res, s2) ∧
      handlePutRecord "d" 7 "c" "k1" [9] 2 exS1 [] true =
        (.okJson uri res.commitCid res.rev, s2, []) := by
  refine ⟨_, _, _, rfl, rfl⟩

/-- C5 (amended): for every mutation whose commit succeeds but whose
firehose emission fails, `emitCommitEvent` logs and swallows the
failure — the caller receives the normal success response, the commit
is not undone (the repo root still names the new commit), and the
firehose log is left unchanged. -/
theorem emit_failure_logged_not_returned_commit_stands
    (did : String) (key : Nat) (collection rkey : String)
    (record : List Nat) (now : Nat) (s : RepoState) (fh : List FhFrame)
    (uri : String) (res : CommitResult) (s2 : RepoState)
    (hput : putRecord did key collection rkey record now s
        = .ok (uri, res, s2)) :
    handlePutRecord did key collection rkey record now s fh true =
      (.okJson uri res.commitCid res.rev, s2, fh) ∧
    s2.root = some ⟨res.commitCid, res.rev⟩ := by
  constructor
  · unfold handlePutRecord
    rw [hput]
    simp [emitCommitEvent, eventsEmit]
  · unfold putRecord at hput
    cases hopen : openRepo s with
    | error e => rw [hopen] at hput; exact absurd hput (by simp)
    | ok o =>
      rw [hopen] at hput
      exact (putRecordWith_ok_inv did key collection rkey record now
        o.1 o.2.1 o.2.2 s uri res s2 hput).2.2.2

/-- Witness for the amended C5 at concrete inputs. -/
theorem emit_failure_logged_not_returned_commit_stands_witness :
    ∃ uri res s2,
      putRecord "d" 7 "c" "k1" [9] 2 exS1 = .ok (uri, res, s2) ∧
      handlePutRecord "d" 7 "c" "k1" [9] 2 exS1 [] true =
        (.okJson uri res.commitCid res.rev, s2, []) ∧
      s2.root = some ⟨res.commitCid, res.rev⟩ := by
  refine ⟨_, _, _, rfl, ?_⟩
  exact emit_failure_logged_not_returned_commit_stands
    "d" 7 "c" "k1" [9] 2 exS1 [] _ _ _ rfl

/-- The diff CAR produced by `commitRepo`: the v1 header with roots
exactly [new commit CID], the commit block first, then the stored
blocks that are neither preloaded nor the commit block. -/
theorem commitRepo_diffCar (did : String) (key : Nat)
    (tbs : TrackingBlockstore) (tree : Mst) (prevRoot : Option RepoRoot)
    (ops : List RepoOp) (now : Nat) (s : RepoState)
    (res : CommitResult) (s2 : RepoState)
    (h : commitRepo did key tbs tree prevRoot ops now s = .ok (res, s2)) :
    ∃ cm : Commit,
      res.commitCid = computeCID (.commitB cm) ∧
      res.diffCar =
        CarItem.header 1 [res.commitCid]
          :: CarItem.entry res.commitCid (.commitB cm)
          :: ((bsPut (bsPut tbs.mem (.nodeB tree)) (.commitB cm)).filter
                (fun p => ¬ (p.1 ∈ tbs.preloaded ∨ p.1 = res.commitCid))).map
              (fun p => CarItem.entry p.1 p.2) := by
  unfold commitRepo at h
  simp only at h
  split at h
  · exact absurd h (by simp)
  · simp only [Except.ok.injEq, Prod.mk.injEq] at h
    obtain ⟨h1, h2⟩ := h
    subst h1
    refine ⟨_, rfl, ?_⟩
    show (exportDiffCAR _ _).1 = _
    simp only [exportDiffCAR, writeDiffBlocks, storeCommitBlock, tbsPut,
      bsGet_bsPut_self]
    simp

/-- C3: for a successful write commit, the diff CAR in the
`CommitResult` consists of the v1 header whose roots list is exactly
[new commit CID], then the new commit block first, then exactly those
blocks that were not in the block set snapshotted when the repo was
opened — namely the MST node new to this commit and the new or updated
record block, nothing else and nothing less. -/
theorem putRecord_diffCar_exactly_new_blocks
    (did : String) (key : Nat) (collection rkey : String)
    (record : List Nat) (now : Nat) (s : RepoState)
    (tbs : TrackingBlockstore) (tree : Mst) (root : RepoRoot)
    (uri : String) (res : CommitResult) (s2 : RepoState)
    (hopen : openRepo s = .ok (tbs, tree, root))
    (hput : putRecord did key collection rkey record now s
        = .ok (uri, res, s2)) :
    ∃ cm : Commit, ∃ rest : List CarItem,
      res.commitCid = computeCID (.commitB cm) ∧
      res.diffCar = CarItem.header 1 [res.commitCid]
        :: CarItem.entry res.commitCid (.commitB cm) :: rest ∧
      (∀ c v, CarItem.entry c v ∈ rest ↔
        (¬ c ∈ bsKeys s.blocks ∧ ¬ c = res.commitCid ∧
          ((c = computeCID (.recB record) ∧ v = .recB record) ∨
           (c = computeCID (.nodeB (Mst.insPos tree
                  (collection ++ "/" ++ rkey)
                  (computeCID (.recB record)))) ∧
            v = .nodeB (Mst.insPos tree (collection ++ "/" ++ rkey)
                  (computeCID (.recB record))))))) := by
  have hinv := openRepo_ok_inv s tbs tree root hopen
  have htbs : tbs = newTrackingBlockstore s.blocks := hinv.2.1
  unfold putRecord at hput
  rw [hopen] at hput
  unfold putRecordWith at hput
  simp only [Mst.insert] at hput
  cases hc : commitRepo did key (tbsPut tbs (.recB record))
      (Mst.insPos tree (collection ++ "/" ++ rkey)
        (computeCID (.recB record)))
      (some root)
      [{ action :=
           if (Mst.get tree (collection ++ "/" ++ rkey)).isSome
           then "update" else "create",
         path := collection ++ "/" ++ rkey,
         cid := some (computeCID (.recB record)),
         prev := Mst.get tree (collection ++ "/" ++ rkey) }]
      now s with
  | error e => rw [hc] at hput; exact absurd hput (by simp)
  | ok rs =>
    rw [hc] at hput
    simp only [Except.ok.injEq, Prod.mk.injEq] at hput
    obtain ⟨h1, h2, h3⟩ := hput
    subst h2
    obtain ⟨cm, hcid, hdiff⟩ := commitRepo_diffCar _ _ _ _ _ _ _ _
      rs.1 rs.2 (by rw [hc])
    subst htbs
    simp only [tbsPut, newTrackingBlockstore] at hdiff
    refine ⟨cm, _, hcid, hdiff, ?_⟩
    intro c v
    simp only [List.mem_map, List.mem_filter]
    constructor
    · rintro ⟨p, ⟨hpmem, hpcond⟩, hpe⟩
      have hpc : p.1 = c ∧ p.2 = v := by
        cases p
        simpa [CarItem.entry.injEq] using hpe
      obtain ⟨hc1, hc2⟩ := hpc
      have hpcv : (c, v) ∈
          bsPut (bsPut (bsPut s.blocks (.recB record))
              (.nodeB (Mst.insPos tree (collection ++ "/" ++ rkey)
                (computeCID (.recB record)))))
            (.commitB cm) := by
        rw [← hc1, ← hc2]
        exact hpmem
      have hcond : ¬ (c ∈ bsKeys s.blocks ∨ c = rs.1.commitCid) := by
        rw [← hc1]
        simpa using hpcond
      push_neg at hcond
      obtain ⟨hnk, hnc⟩ := hcond
      refine ⟨hnk, hnc, ?_⟩
      rw [mem_bsPut] at hpcv
      rcases hpcv with ⟨hcc, hvv⟩ | ⟨hpcv, hne⟩
      · exact (hnc (hcc.trans hcid.symm)).elim
      · rw [mem_bsPut] at hpcv
        rcases hpcv with ⟨hcc, hvv⟩ | ⟨hpcv, hne2⟩
        · exact Or.inr ⟨hcc, hvv⟩
        · rw [mem_bsPut] at hpcv
          rcases hpcv with ⟨hcc, hvv⟩ | ⟨hpcv, hne3⟩
          · exact Or.inl ⟨hcc, hvv⟩
          · exact (hnk (mem_bsKeys_of_mem _ _ _ hpcv)).elim
    · rintro ⟨hnk, hnc, hcv⟩
      refine ⟨(c, v), ⟨?_, ?_⟩, rfl⟩
      · rw [mem_bsPut, mem_bsPut, mem_bsPut]
        have hnecm : ¬ c = computeCID (.commitB cm) := by
          rw [← hcid]
          exact hnc
        rcases hcv with ⟨hcc, hvv⟩ | ⟨hcc, hvv⟩
        · have hnenode : ¬ c = computeCID (.nodeB
              (Mst.insPos tree (collection ++ "/" ++ rkey)
                (computeCID (.recB record)))) := by
            rw [hcc]
            exact computeCID_rec_ne_node record _
          exact Or.inr ⟨Or.inr ⟨Or.inl ⟨hcc, hvv⟩, hnenode⟩, hnecm⟩
        · exact Or.inr ⟨Or.inl ⟨hcc, hvv⟩, hnecm⟩
      · simpa using ⟨hnk, hnc⟩

/-- Witness for C3: the diff CAR of a concrete create on the example
repository — header with the commit as only root, commit entry first,
and the new record block among the remaining entries. -/
theorem putRecord_diffCar_exactly_new_blocks_witness :
    ∃ tbs tree root uri res s2 cm rest,
      openRepo exS1 = .ok (tbs, tree, root) ∧
      putRecord "d" 7 "c" "k1" [9] 2 exS1 = .ok (uri, res, s2) ∧
      res.commitCid = computeCID (.commitB cm) ∧
      res.diffCar = CarItem.header 1 [res.commitCid]
        :: CarItem.entry res.commitCid (.commitB cm) :: rest ∧
      CarItem.entry (computeCID (.recB [9])) (.recB [9]) ∈ rest := by
  obtain ⟨cm, rest, hcid, hdiff, hiff⟩ :=
    putRecord_diffCar_exactly_new_blocks "d" 7 "c" "k1" [9] 2 exS1
      _ _ _ _ _ _ rfl rfl
  refine ⟨_, _, _, _, _, _, cm, rest, rfl, rfl, hcid, hdiff, ?_⟩
  refine (hiff _ _).mpr ⟨by decide, ?_, Or.inl ⟨rfl, rfl⟩⟩
  rw [hcid]
  exact computeCID_rec_ne_commit [9] cm

/-- Invariant of the firehose pipeline model: the persisted log is
strictly ascending and below the next seq; replay state is empty
before the query; after the query, the replayed-plus-pending frames
are exactly the queried snapshot filtered to seq > cursor; and the
subscriber channel is an interleaving of the live and replay streams. -/
def FhInv (st : FhState) : Prop :=
  List.Pairwise (· < ·) st.stored ∧
  (∀ x ∈ st.stored, x < st.nextSeq) ∧
  (st.sub.queried → st.sub.registered) ∧
  (¬ st.sub.queried →
    st.sub.replayLog = [] ∧ st.sub.pending = [] ∧
      st.sub.queriedStored = []) ∧
  List.Pairwise (· < ·) st.sub.queriedStored ∧
  st.sub.replayLog ++ st.sub.pending =
    st.sub.queriedStored.filter (fun x => st.sub.cursor < x) ∧
  st.sub.liveLog.Sublist st.sub.chan ∧
  st.sub.replayLog.Sublist st.sub.chan ∧
  st.sub.chan.length = st.sub.liveLog.length + st.sub.replayLog.length

/-- The initial state satisfies the invariant. -/
theorem fhInv_init : FhInv FhState.init := by
  simp [FhInv, FhState.init]

/-- Every pipeline action preserves the invariant. -/
theorem fhInv_step (st : FhState) (a : FhAction) (h : FhInv st) :
    FhInv (fhStep st a) := by
  obtain ⟨h1, h2, h3, h4, h5, h6, h7, h8, h9⟩ := h
  cases a with
  | emit =>
    simp only [fhStep]
    by_cases hreg : st.sub.registered = true
    · rw [if_pos hreg]
      refine ⟨?_, ?_, h3, h4, h5, h6, ?_, ?_, ?_⟩
      · rw [List.pairwise_append]
        exact ⟨h1, List.pairwise_singleton _ _,
          fun a ha b hb => by
            rw [List.mem_singleton] at hb
            rw [hb]; exact h2 a ha⟩
      · intro x hx
        rw [List.mem_append, List.mem_singleton] at hx
        rcases hx with hx | hx
        · exact Nat.lt_succ_of_lt (h2 x hx)
        · rw [hx]; exact Nat.lt_succ_self _
      · exact h7.append (List.Sublist.refl _)
      · exact h8.trans (List.sublist_append_left _ _)
      · simp only [List.length_append, List.length_singleton]
        omega
    · rw [if_neg hreg]
      refine ⟨?_, ?_, h3, h4, h5, h6, h7, h8, h9⟩
      · rw [List.pairwise_append]
        exact ⟨h1, List.pairwise_singleton _ _,
          fun a ha b hb => by
            rw [List.mem_singleton] at hb
            rw [hb]; exact h2 a ha⟩
      · intro x hx
        rw [List.mem_append, List.mem_singleton] at hx
        rcases hx with hx | hx
        · exact Nat.lt_succ_of_lt (h2 x hx)
        · rw [hx]; exact Nat.lt_succ_self _
  | subscribe k =>
    simp only [fhStep]
    by_cases hreg : st.sub.registered = true
    · rw [if_pos hreg]
      exact ⟨h1, h2, h3, h4, h5, h6, h7, h8, h9⟩
    · rw [if_neg hreg]
      have hq : ¬ st.sub.queried = true := fun hq => hreg (h3 hq)
      obtain ⟨hr0, hp0, hs0⟩ := h4 hq
      refine ⟨h1, h2, fun _ => rfl, fun _ => ⟨hr0, hp0, hs0⟩, h5, ?_,
        h7, h8, h9⟩
      rw [hr0, hp0, hs0]
      rfl
  | replayQuery =>
    simp only [fhStep]
    by_cases hcond : st.sub.registered = true ∧ ¬ st.sub.queried = true
    · rw [if_pos hcond]
      obtain ⟨hr0, hp0, hs0⟩ := h4 hcond.2
      refine ⟨h1, h2, fun _ => hcond.1, fun hq => absurd rfl hq, h1, ?_,
        h7, ?_, ?_⟩
      · rw [hr0]
        rfl
      · rw [hr0]; exact List.nil_sublist _
      · rw [hr0] at h9 ⊢
        exact h9
    · rw [if_neg hcond]
      exact ⟨h1, h2, h3, h4, h5, h6, h7, h8, h9⟩
  | replayPush =>
    simp only [fhStep]
    cases hp : st.sub.pending with
    | nil => exact ⟨h1, h2, h3, h4, h5, h6, h7, h8, h9⟩
    | cons p rest =>
      dsimp only
      have hq : st.sub.queried = true := by
        by_contra hq
        exact absurd hp (by rw [(h4 hq).2.1]; simp)
      refine ⟨h1, h2, fun _ => h3 hq, fun hq2 => absurd hq hq2, h5, ?_,
        ?_, ?_, ?_⟩
      · rw [List.append_assoc]
        simpa [hp] using h6
      · exact h7.trans (List.sublist_append_left _ _)
      · exact h8.append (List.Sublist.refl _)
      · simp only [List.length_append, List.length_singleton]
        omega

/-- The invariant holds after running any schedule. -/
theorem fhInv_run (acts : List FhAction) : FhInv (fhRun acts) := by
  have hgen : ∀ (l : List FhAction) (st : FhState), FhInv st →
      FhInv (l.foldl fhStep st) := by
    intro l
    induction l with
    | nil => intro st h; exact h
    | cons a l ih => intro st h; exact ih _ (fhInv_step st a h)
  exact hgen acts FhState.init fhInv_init

/-- C4 (counterexample): under the schedule "emit seq 1, subscribe with
cursor 0, emit seq 2 (delivered live), replay query (snapshot [1, 2]),
push both replayed frames", the subscriber channel holds [2, 1, 2]:
frame 2 — below the replay high-water mark — is delivered live and
again by replay, so delivery is neither strictly monotone in seq nor
duplicate-free; no live frame is dropped at the subscriber. -/
theorem subscribe_replay_duplicate_and_reorder :
    (fhRun [FhAction.emit, FhAction.subscribe 0, FhAction.emit,
        FhAction.replayQuery, FhAction.replayPush,
        FhAction.replayPush]).sub.chan = [2, 1, 2] ∧
    ¬ List.Pairwise (· < ·)
      (fhRun [FhAction.emit, FhAction.subscribe 0, FhAction.emit,
          FhAction.replayQuery, FhAction.replayPush,
          FhAction.replayPush]).sub.chan ∧
    ¬ List.Nodup
      (fhRun [FhAction.emit, FhAction.subscribe 0, FhAction.emit,
          FhAction.replayQuery, FhAction.replayPush,
          FhAction.replayPush]).sub.chan := by
  refine ⟨by decide, by decide, by decide⟩

/-- C4 (amended): for every schedule, the subscriber channel is an
interleaving of the live stream and the replay stream (each is a
subsequence and together they account for every delivered frame); the
replayed frames together with those still pending are exactly the
frames stored at query time with seq greater than the cursor, in
strictly ascending seq order.  Frames both stored before the replay
query and broadcast after registration are delivered twice — the model
performs no dedup at the subscriber. -/
theorem subscriber_chan_interleaving (acts : List FhAction) :
    (fhRun acts).sub.liveLog.Sublist (fhRun acts).sub.chan ∧
    (fhRun acts).sub.replayLog.Sublist (fhRun acts).sub.chan ∧
    (fhRun acts).sub.chan.length =
      (fhRun acts).sub.liveLog.length +
        (fhRun acts).sub.replayLog.length ∧
    (fhRun acts).sub.replayLog ++ (fhRun acts).sub.pending =
      (fhRun acts).sub.queriedStored.filter
        (fun x => (fhRun acts).sub.cursor < x) ∧
    List.Pairwise (· < ·)
      ((fhRun acts).sub.replayLog ++ (fhRun acts).sub.pending) := by
  obtain ⟨h1, h2, h3, h4, h5, h6, h7, h8, h9⟩ := fhInv_run acts
  exact ⟨h7, h8, h9, h6, by rw [h6]; exact h5.filter _⟩

/-- Witness for the amended C4 at the duplicate-producing schedule. -/
theorem subscriber_chan_interleaving_witness :
    (fhRun [FhAction.emit, FhAction.subscribe 0, FhAction.emit,
        FhAction.replayQuery, FhAction.replayPush,
        FhAction.replayPush]).sub.liveLog.Sublist
      (fhRun [FhAction.emit, FhAction.subscribe 0, FhAction.emit,
          FhAction.replayQuery, FhAction.replayPush,
          FhAction.replayPush]).sub.chan ∧
    List.Pairwise (· < ·)
      ((fhRun [FhAction.emit, FhAction.subscribe 0, FhAction.emit,
          FhAction.replayQuery, FhAction.replayPush,
          FhAction.replayPush]).sub.replayLog ++
        (fhRun [FhAction.emit, FhAction.subscribe 0, FhAction.emit,
            FhAction.replayQuery, FhAction.replayPush,
            FhAction.replayPush]).sub.pending) :=
  ⟨(subscriber_chan_interleaving [FhAction.emit, FhAction.subscribe 0,
      FhAction.emit, FhAction.replayQuery, FhAction.replayPush,
      FhAction.replayPush]).1,
   (subscriber_chan_interleaving [FhAction.emit, FhAction.subscribe 0,
      FhAction.emit, FhAction.replayQuery, FhAction.replayPush,
      FhAction.replayPush]).2.2.2.2⟩
